import Mathlib

/-!
Shallow embedding of `2_data_preprocessing/process_daymet_data.py`.

Filenames are Lean `String`s; directories are lists of the filenames they
contain.  Grid cell values are exact rationals, with `none` standing for a
missing value (NaN); time coordinates are natural numbers.  The geometric
clip itself is performed by an external library (`rioxarray`), so the
per-variable clip outcome is passed in as a function (`clip`) from the
variable identifier to either an exception message or a clipped grid.
-/

namespace DayMet

/-- The hard-coded Daymet spatial reference (a proj4 string), from the module
constant `DAYMET_CRS` of the source. -/
def DAYMET_CRS : String :=
  "+proj=lcc +lat_1=25 +lat_2=60 +lat_0=42.5 +lon_0=-100 +x_0=0 +y_0=0 +ellps=WGS84 +units=m +no_defs"

/-- Python `s.startswith(p)`: `p` is a character-wise prefix of `s`. -/
def strStartsWith (s p : String) : Bool := p.toList.isPrefixOf s.toList

/-- Python `s.endswith(p)`: `p` is a character-wise suffix of `s`. -/
def strEndsWith (s p : String) : Bool := p.toList.isSuffixOf s.toList

/-- Python take of the first underscore-separated token of a filename
(source line 85, index 0 of the split): the part of `name` that precedes the
first underscore, i.e. the whole name when no underscore occurs. -/
def stemOf (name : String) : String :=
  String.mk (name.toList.takeWhile (fun c => c != '_'))

/-- One item of a glob character class: a literal member or a code-point
range (fnmatch ranges compare by code point; a reversed range matches
nothing). -/
inductive ClassItem where
  | lit (c : Char)
  | range (lo hi : Char)
deriving DecidableEq

/-- Does a character fall under one class item? -/
def classItemMatches (c : Char) : ClassItem → Bool
  | .lit d => c == d
  | .range lo hi => decide (lo.toNat ≤ c.toNat) && decide (c.toNat ≤ hi.toNat)

/-- Parse the body of a glob class into items, fnmatch style: a hyphen
between two characters forms a range; a hyphen first or last is literal. -/
def parseClassItems : List Char → List ClassItem
  | [] => []
  | c :: '-' :: d :: rest => .range c d :: parseClassItems rest
  | c :: rest => .lit c :: parseClassItems rest

/-- Scan for the closing bracket of a glob class: the characters before it
and the characters after it, or `none` when it never closes. -/
def splitAtClose : List Char → Option (List Char × List Char)
  | [] => none
  | c :: rest =>
    if c == ']' then some ([], rest)
    else (splitAtClose rest).map (fun p => (c :: p.1, p.2))

/-- Body of a glob class following the opening bracket, fnmatch style: a
closing bracket in first position is a literal member; the class ends at the
next closing bracket. -/
def classBody (ps : List Char) : Option (List Char × List Char) :=
  match ps with
  | c :: rest =>
    if c == ']' then (splitAtClose rest).map (fun p => (']' :: p.1, p.2))
    else splitAtClose ps
  | [] => none

/-- Parse a glob class after its opening bracket, fnmatch style: a leading
bang negates; `none` when the bracket never closes (then the bracket is a
literal). -/
def classSplit (ps : List Char) : Option (Bool × List Char × List Char) :=
  match ps with
  | c :: rest =>
    if c == '!' then (classBody rest).map (fun p => (true, p.1, p.2))
    else (classBody ps).map (fun p => (false, p.1, p.2))
  | [] => none

/-- One token of a compiled glob pattern. -/
inductive GlobToken where
  | star
  | anyChar
  | lit (c : Char)
  | cls (negated : Bool) (items : List ClassItem)
deriving DecidableEq

/-- Compile a glob pattern to tokens, fnmatch style.  Fuel-indexed so that
the recursion is structural; every step consumes at least one pattern
character, so fuel equal to the pattern length suffices. -/
def parseGlobFuel : Nat → List Char → List GlobToken
  | 0, _ => []
  | _ + 1, [] => []
  | fuel + 1, c :: ps =>
    if c == '*' then .star :: parseGlobFuel fuel ps
    else if c == '?' then .anyChar :: parseGlobFuel fuel ps
    else if c == '[' then
      match classSplit ps with
      | none => .lit '[' :: parseGlobFuel fuel ps
      | some (negated, content, rest) =>
        .cls negated (parseClassItems content) :: parseGlobFuel fuel rest
    else .lit c :: parseGlobFuel fuel ps

/-- Compile a glob pattern to tokens. -/
def parseGlob (p : List Char) : List GlobToken := parseGlobFuel p.length p

/-- Match compiled glob tokens against a name, full-match semantics: star
matches any (possibly empty) run of characters, every other token exactly
one. -/
def matchTokens : List GlobToken → List Char → Bool
  | [], name => name.isEmpty
  | .star :: ts, name => name.tails.any (fun s => matchTokens ts s)
  | .anyChar :: ts, name =>
    match name with
    | [] => false
    | _ :: ns => matchTokens ts ns
  | .lit d :: ts, name =>
    match name with
    | [] => false
    | c :: ns => (d == c) && matchTokens ts ns
  | .cls negated items :: ts, name =>
    match name with
    | [] => false
    | c :: ns => ((items.any (classItemMatches c)) != negated) && matchTokens ts ns

/-- Glob matching of one path component, the semantics pathlib gives the
patterns of source lines 85 and 98 (fnmatch translate plus full match;
wildcards do match names that start with a dot). -/
def fnmatchStr (pattern name : String) : Bool :=
  matchTokens (parseGlob pattern.toList) name.toList

/-- Does the string hold a character the glob engine treats specially? -/
def hasGlobMeta (s : String) : Bool :=
  s.toList.any (fun c => c == '*' || c == '?' || c == '[')

/-- Membership test of the glob over the pattern star-dot-nc at source line
85.  pathlib glob wildcards do match names that start with a dot, so this is
exactly a suffix test for `.nc` (proved below as `isNcFile_eq_strEndsWith`). -/
def isNcFile (name : String) : Bool := fnmatchStr "*.nc" name

/-- Membership test of the glob over the pattern stem-underscore-star-dot-nc
at source line 98.  The identifier is interpolated into the pattern, so glob
metacharacters inside it are expanded; for identifiers free of
metacharacters this is exactly the literal test
`name = stem ++ "_" ++ mid ++ ".nc"` (proved below as
`matchesVarGlob_no_meta`). -/
def matchesVarGlob (stem name : String) : Bool :=
  fnmatchStr (stem ++ "_*.nc") name

/-- Lexicographic comparison of character lists by code point, the order
Python uses to compare strings. -/
def charListLe : List Char → List Char → Bool
  | [], _ => true
  | _ :: _, [] => false
  | a :: as, b :: bs =>
    if a.toNat < b.toNat then true
    else if b.toNat < a.toNat then false
    else charListLe as bs

/-- Python `a <= b` on strings: lexicographic by code points. -/
def strLe (a b : String) : Bool := charListLe a.toList b.toList

/-- Python `sorted` on a list of strings. -/
def sortStrings (l : List String) : List String :=
  List.insertionSort (fun a b => strLe a b = true) l

/-- Source line 85: the sorted list of the set of first
underscore-separated tokens of the raster filenames in the directory. -/
def variable_stems (files : List String) : List String :=
  sortStrings (((files.filter isNcFile).map stemOf).dedup)

/-- Source line 98: the sorted list of the files the per-stem glob
matches. -/
def netcdf_files_for (stem : String) (files : List String) : List String :=
  sortStrings (files.filter (matchesVarGlob stem))

/-- The clipped dataset as seen by lines 121-138 of the source: the reported
sizes of the two spatial dimensions (absent when the dimension itself is
gone), the time coordinate values, and per time step the clipped cells of the
selected variable (`none` = missing / NaN). -/
structure ClippedGrid where
  xSize : Option Nat
  ySize : Option Nat
  times : List Nat
  cells : List (List (Option ℚ))
deriving DecidableEq

/-- The emptiness check of source lines 121-122: the x dimension is absent
from the reported sizes, or the y dimension is, or either reported size
equals zero. -/
def emptyClip (g : ClippedGrid) : Bool :=
  g.xSize.isNone || g.ySize.isNone || g.xSize == some 0 || g.ySize == some 0

/-- Reduction of one time step by the mean over the two spatial dims
(source line 131), with the default `skipna` handling of xarray: the
arithmetic mean of the non-missing cells, and `none` (NaN, an explicit
missing marker) when every cell is missing. -/
def spatialMean (cells : List (Option ℚ)) : Option ℚ :=
  let present := cells.filterMap id
  if present.isEmpty then none else some (present.sum / (present.length : ℚ))

/-- The single-column dated series built at source lines 131-138
(`pd.DataFrame(spatial_mean_da.values, index=..., columns=[stem])`). -/
structure DailySeries where
  stem : String
  entries : List (Nat × Option ℚ)
deriving DecidableEq

/-- Source lines 131-138: reduce the clipped grid over both spatial axes by
arithmetic mean and index the resulting scalars by the time coordinate. -/
def reduceToSeries (stem : String) (g : ClippedGrid) : DailySeries :=
  { stem := stem, entries := g.times.zip (g.cells.map spatialMean) }

/-- The messages printed by `process_subbasin`. -/
inductive LogMsg where
  | warnNoFiles
  | foundVariables (stems : List String)
  | processingVar (stem : String)
  | warnEmptyClip (stem : String)
  | errorClip (stem : String) (cause : String)
  | warnNoData
  | aggregating
deriving DecidableEq

/-- One iteration of the `for stem in variable_stems` loop (source lines
95-140): skip silently when no files match the glob of the stem; otherwise clip
(outcome supplied by `clip`), skip with a warning on an empty clip, skip and
log the cause on any clip-time exception, and on success append the reduced
single-column series. -/
def process_variable (files : List String)
    (clip : String → Except String ClippedGrid) (stem : String) :
    Option DailySeries × List LogMsg :=
  if (netcdf_files_for stem files).isEmpty then (none, [.processingVar stem])
  else
    match clip stem with
    | .error e => (none, [.processingVar stem, .errorClip stem e])
    | .ok g =>
      if emptyClip g then (none, [.processingVar stem, .warnEmptyClip stem])
      else (some (reduceToSeries stem g), [.processingVar stem])

/-- Did the loop iteration for `stem` append a series?  (Files matched, the
clip raised no exception, and the clipped grid was non-empty.) -/
def varSucceeds (files : List String)
    (clip : String → Except String ClippedGrid) (stem : String) : Bool :=
  !(netcdf_files_for stem files).isEmpty &&
    (match clip stem with
     | .ok g => !(emptyClip g)
     | .error _ => false)

/-- The per-region table built by `pd.concat(basin_timeseries_list, axis=1)`:
one column per successfully processed variable. -/
structure RegionTable where
  cols : List DailySeries
deriving DecidableEq

/-- The column labels of the table (the variable identifiers). -/
def RegionTable.columns (t : RegionTable) : List String :=
  t.cols.map DailySeries.stem

/-- pandas `DataFrame.empty`: no columns, or an index with no rows. -/
def RegionTable.isEmpty (t : RegionTable) : Bool :=
  t.cols.isEmpty || t.cols.all (fun c => c.entries.isEmpty)

/-- The `basin_timeseries_list` accumulated by the loop of source lines
95-140: the series of the stems whose iteration appended one, in stem
order. -/
def basin_timeseries_list (files : List String)
    (clip : String → Except String ClippedGrid) : List DailySeries :=
  ((variable_stems files).map (process_variable files clip)).filterMap Prod.fst

/-- Everything the loop of source lines 95-140 prints, preceded by the
`Found variables` line of source line 91. -/
def basin_logs (files : List String)
    (clip : String → Except String ClippedGrid) : List LogMsg :=
  LogMsg.foundVariables (variable_stems files) ::
    (((variable_stems files).map (process_variable files clip)).map Prod.snd).flatten

/-- Function `process_subbasin` (source lines 65-148): discover the variable stems;
return `None` when there are none; process each stem in order; return `None`
with a warning when no stem produced a series, and otherwise the
concatenated table. -/
def process_subbasin (files : List String)
    (clip : String → Except String ClippedGrid) :
    Option RegionTable × List LogMsg :=
  if (variable_stems files).isEmpty then (none, [.warnNoFiles])
  else if (basin_timeseries_list files clip).isEmpty then
    (none, basin_logs files clip ++ [.warnNoData])
  else (some { cols := basin_timeseries_list files clip },
    basin_logs files clip ++ [.aggregating])

/-- Python `s.replace(old, new)` for a single-character pattern: replace
every occurrence of the character `old` by `new`. -/
def replaceChar (old new : Char) (s : String) : String :=
  String.mk (s.toList.map (fun c => if c = old then new else c))

/-- Source line 190: the sub-basin name with spaces and slashes replaced by
underscores, followed by the suffix `_timeseries.csv`. -/
def output_filename (name : String) : String :=
  replaceChar '/' '_' (replaceChar ' ' '_' name) ++ "_timeseries.csv"

/-- The environment `main` runs against: the two filesystem checks, the
attribute columns of the vector file, the region names in shapefile order,
the contents of the raster directory, and the clip outcome for each region
and variable identifier. -/
structure World where
  shapefileIsFile : Bool
  netcdfIsDir : Bool
  gdfColumns : List String
  regions : List String
  archiveFiles : List String
  clip : String → String → Except String ClippedGrid

/-- The diagnostic messages `main` prints before exiting. -/
inductive ExitMsg where
  | shapefileNotFound
  | netcdfDirNotFound
  | idColumnNotFound (col : String)
  | availableColumns (cols : List String)
deriving DecidableEq

/-- How a run of `main` ends: `sys.exit(code)` after printing `msgs`, or
normal completion having written the listed `(filename, table)` outputs. -/
inductive MainResult where
  | exit (code : Nat) (msgs : List ExitMsg)
  | completed (outputs : List (String × RegionTable))

/-- One iteration of the region loop (source lines 179-196): write a file
exactly when `process_subbasin` returned a table that is not empty. -/
def writeStep (w : World) (name : String) : Option (String × RegionTable) :=
  match (process_subbasin w.archiveFiles (w.clip name)).1 with
  | some t => if t.isEmpty then none else some (output_filename name, t)
  | none => none

/-- The whole region loop: the files written, in region order. -/
def driverOutputs (w : World) (names : List String) : List (String × RegionTable) :=
  names.filterMap (writeStep w)

/-- Function `main` (source lines 151-198): the three fatal input checks in
source order, then the region loop. -/
def main (w : World) (idColumn : String) : MainResult :=
  if !w.shapefileIsFile then .exit 1 [.shapefileNotFound]
  else if !w.netcdfIsDir then .exit 1 [.netcdfDirNotFound]
  else if idColumn ∈ w.gdfColumns then .completed (driverOutputs w w.regions)
  else .exit 1 [.idColumnNotFound idColumn, .availableColumns w.gdfColumns]

/-- A raster dataset as manipulated at source lines 104-114: the two spatial
coordinate axes (values as exact rationals), their unit metadata, and the
attached spatial reference. -/
structure Dataset where
  xCoords : List ℚ
  yCoords : List ℚ
  xUnits : String
  yUnits : String
  crs : Option String
deriving DecidableEq

/-- The Coordinate Reconciler (source lines 106-114): multiply both spatial
coordinate axes by 1000 (kilometers to meters), record unit `m` on both
axes, and attach the hard-coded Daymet spatial reference. -/
def reconcile (ds : Dataset) : Dataset :=
  { xCoords := ds.xCoords.map (fun v => v * 1000)
    yCoords := ds.yCoords.map (fun v => v * 1000)
    xUnits := "m"
    yUnits := "m"
    crs := some DAYMET_CRS }

/-- Modelled behaviour of the library call opening the matched files as one
multi-file dataset combined by coordinates (source line 104): every file
contributes its time slices, and the combined dataset holds all of them
ordered along the time coordinate. -/
def combineByCoords (contents : String → List (Nat × List (Option ℚ)))
    (files : List String) : List (Nat × List (Option ℚ)) :=
  ((files.map contents).flatten).insertionSort (fun a b => a.1 ≤ b.1)

/-! ### General lemmas about the embedded operations -/

theorem charListLe_trans : ∀ as bs cs, charListLe as bs = true → charListLe bs cs = true →
    charListLe as cs = true := by
  intro as
  induction as with
  | nil => intro bs cs _ _; rfl
  | cons a as ih =>
    intro bs cs h1 h2
    cases bs with
    | nil => simp [charListLe] at h1
    | cons b bs =>
      cases cs with
      | nil => simp [charListLe] at h2
      | cons c cs =>
        simp only [charListLe] at h1 h2 ⊢
        split_ifs at h1 h2 ⊢ <;> try omega
        all_goals try rfl
        all_goals exact ih bs cs h1 h2

theorem charListLe_total : ∀ as bs, charListLe as bs = true ∨ charListLe bs as = true := by
  intro as
  induction as with
  | nil => intro bs; left; rfl
  | cons a as ih =>
    intro bs
    cases bs with
    | nil => right; rfl
    | cons b bs =>
      simp only [charListLe]
      rcases Nat.lt_trichotomy a.toNat b.toNat with h | h | h
      · left; simp [h]
      · have hab : ¬ a.toNat < b.toNat := by omega
        have hba : ¬ b.toNat < a.toNat := by omega
        rcases ih bs with h2 | h2
        · left; simp [hab, hba, h2]
        · right; simp [hab, hba, h2]
      · have hab : ¬ a.toNat < b.toNat := by omega
        right; simp [h, hab]

theorem strLe_trans {a b c : String} (h1 : strLe a b = true) (h2 : strLe b c = true) :
    strLe a c = true :=
  charListLe_trans _ _ _ h1 h2

theorem strLe_total (a b : String) : strLe a b = true ∨ strLe b a = true :=
  charListLe_total _ _

theorem mem_sortStrings {a : String} {l : List String} : a ∈ sortStrings l ↔ a ∈ l :=
  List.mem_insertionSort _

theorem sorted_sortStrings (l : List String) :
    (sortStrings l).Sorted (fun a b => strLe a b = true) := by
  haveI : IsTotal String (fun a b => strLe a b = true) := ⟨strLe_total⟩
  haveI : IsTrans String (fun a b => strLe a b = true) := ⟨fun _ _ _ => strLe_trans⟩
  exact List.sorted_insertionSort _ l

theorem nodup_variable_stems (files : List String) : (variable_stems files).Nodup :=
  (List.perm_insertionSort _ _).symm.nodup (List.nodup_dedup _)

theorem sorted_variable_stems (files : List String) :
    (variable_stems files).Sorted (fun a b => strLe a b = true) :=
  sorted_sortStrings _

theorem mem_variable_stems {s : String} {files : List String} :
    s ∈ variable_stems files ↔ ∃ f, f ∈ files ∧ isNcFile f = true ∧ stemOf f = s := by
  unfold variable_stems
  rw [mem_sortStrings, List.mem_dedup]
  simp only [List.mem_map, List.mem_filter]
  constructor
  · rintro ⟨f, ⟨hf, hnc⟩, hs⟩; exact ⟨f, hf, hnc, hs⟩
  · rintro ⟨f, hf, hnc, hs⟩; exact ⟨f, ⟨hf, hnc⟩, hs⟩

theorem fst_process_variable_isSome (files : List String)
    (clip : String → Except String ClippedGrid) (stem : String) :
    (process_variable files clip stem).1.isSome = varSucceeds files clip stem := by
  unfold process_variable varSucceeds
  split
  · simp [*]
  · rename_i h
    cases hc : clip stem with
    | error e => simp [h, hc]
    | ok g =>
      by_cases hg : emptyClip g
      · simp [h, hc, hg]
      · simp [h, hc, hg]

theorem stem_of_process_variable {files : List String}
    {clip : String → Except String ClippedGrid} {stem : String} {d : DailySeries}
    (h : (process_variable files clip stem).1 = some d) : d.stem = stem := by
  unfold process_variable at h
  split at h
  · simp at h
  · cases hc : clip stem with
    | error e => rw [hc] at h; simp at h
    | ok g =>
      rw [hc] at h
      by_cases hg : emptyClip g
      · simp [hg] at h
      · simp [hg, reduceToSeries] at h
        rw [← h]

theorem columns_of_results (files : List String)
    (clip : String → Except String ClippedGrid) :
    ∀ stems : List String,
      (stems.filterMap (fun s => (process_variable files clip s).1)).map DailySeries.stem =
        stems.filter (varSucceeds files clip) := by
  intro stems
  induction stems with
  | nil => rfl
  | cons s rest ih =>
    simp only [List.filterMap_cons, List.filter_cons]
    cases hp : (process_variable files clip s).1 with
    | none =>
      have hv : varSucceeds files clip s = false := by
        rw [← fst_process_variable_isSome, hp]; rfl
      simp [hv, ih]
    | some d =>
      have hv : varSucceeds files clip s = true := by
        rw [← fst_process_variable_isSome, hp]; rfl
      have hd := stem_of_process_variable hp
      simp [hv, ih, hd]

theorem process_subbasin_columns {files : List String}
    {clip : String → Except String ClippedGrid} {t : RegionTable} {logs : List LogMsg}
    (h : process_subbasin files clip = (some t, logs)) :
    t.columns = (variable_stems files).filter (varSucceeds files clip) := by
  unfold process_subbasin at h
  split at h
  · exact absurd h (by simp)
  · split at h
    · exact absurd h (by simp)
    · injection h with h1 h2
      injection h1 with h1
      rw [← h1]
      show (basin_timeseries_list files clip).map DailySeries.stem = _
      unfold basin_timeseries_list
      rw [List.filterMap_map]
      exact columns_of_results files clip (variable_stems files)

theorem mem_columns_iff {files : List String}
    {clip : String → Except String ClippedGrid} {t : RegionTable} {logs : List LogMsg}
    (h : process_subbasin files clip = (some t, logs)) (s : String) :
    s ∈ t.columns ↔ s ∈ variable_stems files ∧ varSucceeds files clip s = true := by
  rw [process_subbasin_columns h, List.mem_filter]

theorem fst_process_subbasin_none_iff (files : List String)
    (clip : String → Except String ClippedGrid) :
    (process_subbasin files clip).1 = none ↔
      ∀ s ∈ variable_stems files, varSucceeds files clip s = false := by
  unfold process_subbasin
  split
  · rename_i hs
    rw [List.isEmpty_iff] at hs
    simp [hs]
  · split
    · rename_i hs hser
      rw [List.isEmpty_iff] at hser
      unfold basin_timeseries_list at hser
      rw [List.filterMap_map] at hser
      simp only [Function.comp_def] at hser
      have : (variable_stems files).filter (varSucceeds files clip) = [] := by
        rw [← columns_of_results files clip, hser]
        rfl
      simp only [List.filter_eq_nil_iff] at this
      simp only [true_iff]
      intro s hsm
      exact Bool.eq_false_iff.mpr fun hv => by
        have := this s hsm
        simp [hv] at this
    · rename_i hs hser
      rw [List.isEmpty_iff] at hser
      unfold basin_timeseries_list at hser
      rw [List.filterMap_map] at hser
      simp only [Function.comp_def] at hser
      simp only [reduceCtorEq, false_iff]
      intro hall
      apply hser
      have : (variable_stems files).filter (varSucceeds files clip) = [] :=
        List.filter_eq_nil_iff.mpr fun s hsm => by simp [hall s hsm]
      have hmap := columns_of_results files clip (variable_stems files)
      rw [this] at hmap
      exact List.map_eq_nil_iff.mp hmap

theorem parseGlobFuel_nil : ∀ m, parseGlobFuel m [] = [] := by
  intro m
  cases m <;> rfl

theorem matchTokens_lits_iff : ∀ (cs s : List Char),
    matchTokens (cs.map GlobToken.lit) s = true ↔ s = cs := by
  intro cs
  induction cs with
  | nil =>
    intro s
    cases s <;> simp [matchTokens]
  | cons c cs ih =>
    intro s
    cases s with
    | nil => simp [matchTokens]
    | cons d ds =>
      simp only [List.map_cons, matchTokens, Bool.and_eq_true, beq_iff_eq, ih,
        List.cons.injEq]
      constructor
      · rintro ⟨h1, h2⟩; exact ⟨h1.symm, h2⟩
      · rintro ⟨h1, h2⟩; exact ⟨h1.symm, h2⟩

theorem matchTokens_lit_append_iff : ∀ (l : List Char) (ts : List GlobToken)
    (name : List Char),
    matchTokens (l.map GlobToken.lit ++ ts) name = true ↔
      ∃ rest, name = l ++ rest ∧ matchTokens ts rest = true := by
  intro l
  induction l with
  | nil =>
    intro ts name
    simp
  | cons c l ih =>
    intro ts name
    cases name with
    | nil =>
      simp only [List.map_cons, List.cons_append, matchTokens]
      constructor
      · intro h; exact absurd h (by simp)
      · rintro ⟨rest, h, _⟩; exact absurd h (by simp)
    | cons d ds =>
      simp only [List.map_cons, List.cons_append, matchTokens, Bool.and_eq_true,
        beq_iff_eq]
      constructor
      · rintro ⟨h1, h2⟩
        obtain ⟨rest, h3, hm⟩ := (ih ts ds).mp h2
        refine ⟨rest, ?_, hm⟩
        rw [h3, h1]
      · rintro ⟨rest, heq, hm⟩
        injection heq with h1 h2
        exact ⟨h1.symm, (ih ts ds).mpr ⟨rest, h2, hm⟩⟩

theorem matchTokens_star_lits_iff (cs name : List Char) :
    matchTokens (GlobToken.star :: cs.map GlobToken.lit) name = true ↔
      cs <:+ name := by
  simp only [matchTokens, List.any_eq_true]
  constructor
  · rintro ⟨s, hs, hm⟩
    rw [List.mem_tails] at hs
    rw [matchTokens_lits_iff] at hm
    exact hm ▸ hs
  · intro h
    exact ⟨cs, (List.mem_tails cs name).mpr h, (matchTokens_lits_iff cs cs).mpr rfl⟩

theorem parseGlobFuel_lits : ∀ (l rest : List Char) (fuel : Nat),
    (∀ c ∈ l, c ≠ '*' ∧ c ≠ '?' ∧ c ≠ '[') → l.length ≤ fuel →
    parseGlobFuel fuel (l ++ rest) =
      l.map GlobToken.lit ++ parseGlobFuel (fuel - l.length) rest := by
  intro l
  induction l with
  | nil => intro rest fuel _ _; simp
  | cons c l ih =>
    intro rest fuel hmeta hlen
    cases fuel with
    | zero => simp at hlen
    | succ fuel =>
      have hc := hmeta c (List.mem_cons_self c l)
      have h1 : (c == '*') = false := by simp [hc.1]
      have h2 : (c == '?') = false := by simp [hc.2.1]
      have h3 : (c == '[') = false := by simp [hc.2.2]
      show parseGlobFuel (fuel + 1) (c :: (l ++ rest)) = _
      simp only [parseGlobFuel, h1, h2, h3, Bool.false_eq_true, if_false]
      rw [ih rest fuel (fun x hx => hmeta x (List.mem_cons_of_mem c hx))
        (by simp at hlen; omega)]
      simp [Nat.succ_sub_one]

theorem parseGlobFuel_tail_pattern (m : Nat) (hm : 5 ≤ m) :
    parseGlobFuel m ['_', '*', '.', 'n', 'c'] =
      [GlobToken.lit '_', GlobToken.star, GlobToken.lit '.', GlobToken.lit 'n',
        GlobToken.lit 'c'] := by
  obtain ⟨k, rfl⟩ : ∃ k, m = k + 5 := ⟨m - 5, by omega⟩
  show GlobToken.lit '_' :: GlobToken.star :: GlobToken.lit '.' :: GlobToken.lit 'n' ::
    GlobToken.lit 'c' :: parseGlobFuel k [] = _
  rw [parseGlobFuel_nil]

theorem isNcFile_eq_strEndsWith (f : String) : isNcFile f = strEndsWith f ".nc" := by
  rw [Bool.eq_iff_iff]
  unfold isNcFile fnmatchStr strEndsWith
  have hp : parseGlob ("*.nc".toList) =
      GlobToken.star :: (['.', 'n', 'c'].map GlobToken.lit) := rfl
  rw [hp, matchTokens_star_lits_iff, List.isSuffixOf_iff_suffix]
  exact Iff.rfl

theorem matchesVarGlob_no_meta {stem : String} (hmeta : hasGlobMeta stem = false)
    (f : String) :
    matchesVarGlob stem f = true ↔
      strStartsWith f (stem ++ "_") = true ∧ strEndsWith f ".nc" = true ∧
        stem.length + 4 ≤ f.length := by
  have htl : (stem ++ "_*.nc").toList = stem.toList ++ ['_', '*', '.', 'n', 'c'] := by
    show (stem ++ "_*.nc").data = stem.data ++ ['_', '*', '.', 'n', 'c']
    rw [String.data_append]
  have hmeta2 : ∀ c ∈ stem.toList, c ≠ '*' ∧ c ≠ '?' ∧ c ≠ '[' := by
    intro c hc
    have h := List.any_eq_false.mp hmeta c hc
    simp only [Bool.or_eq_true, beq_iff_eq, not_or] at h
    exact ⟨h.1.1, h.1.2, h.2⟩
  unfold matchesVarGlob fnmatchStr parseGlob strStartsWith strEndsWith
  rw [htl]
  rw [parseGlobFuel_lits stem.toList ['_', '*', '.', 'n', 'c'] _ hmeta2 (by simp)]
  have hsub : (stem.toList ++ ['_', '*', '.', 'n', 'c']).length - stem.toList.length = 5 := by
    simp
  rw [hsub, parseGlobFuel_tail_pattern 5 (by omega)]
  have hregroup : stem.toList.map GlobToken.lit ++
      [GlobToken.lit '_', GlobToken.star, GlobToken.lit '.', GlobToken.lit 'n',
        GlobToken.lit 'c'] =
      (stem.toList ++ ['_']).map GlobToken.lit ++
        (GlobToken.star :: (['.', 'n', 'c'].map GlobToken.lit)) := by
    simp
  rw [hregroup, matchTokens_lit_append_iff]
  have hP : (stem ++ "_").toList = stem.toList ++ ['_'] := by
    show (stem ++ "_").data = stem.data ++ ['_']
    rw [String.data_append]
  rw [List.isPrefixOf_iff_prefix, List.isSuffixOf_iff_suffix, hP]
  have hnc3 : ".nc".toList = ['.', 'n', 'c'] := rfl
  rw [hnc3]
  have hflen : f.length = f.toList.length := rfl
  have hslen : stem.length = stem.toList.length := rfl
  constructor
  · rintro ⟨rest, hsplit, hm⟩
    rw [matchTokens_star_lits_iff] at hm
    refine ⟨⟨rest, hsplit.symm⟩, ?_, ?_⟩
    · obtain ⟨pre, hpre⟩ := hm
      refine ⟨(stem.toList ++ ['_']) ++ pre, ?_⟩
      rw [hsplit, ← hpre]
      simp
    · have h1 : f.toList.length = stem.toList.length + 1 + rest.length := by
        rw [hsplit]
        simp only [List.length_append, List.length_cons, List.length_nil]
      have h2 : 3 ≤ rest.length := by simpa using hm.length_le
      rw [hflen, hslen]
      omega
  · rintro ⟨hpre, hsuf, hlen⟩
    obtain ⟨rest, hrest⟩ := hpre
    obtain ⟨pre, hpre2⟩ := hsuf
    refine ⟨rest, hrest.symm, ?_⟩
    rw [matchTokens_star_lits_iff]
    have hlen2 : 3 ≤ rest.length := by
      have h1 : f.toList.length = stem.toList.length + 1 + rest.length := by
        rw [← hrest]
        simp only [List.length_append, List.length_cons, List.length_nil]
      rw [hflen, hslen] at hlen
      omega
    have hkey : (stem.toList ++ ['_']) ++ rest = pre ++ ['.', 'n', 'c'] := by
      rw [hrest, hpre2]
    rcases List.append_eq_append_iff.mp hkey with ⟨a, ha1, ha2⟩ | ⟨a, ha1, ha2⟩
    · exact ⟨a, ha2.symm⟩
    · have h3 : rest.length ≤ (['.', 'n', 'c'] : List Char).length := by
        rw [ha2]; simp
      have h4 : (['.', 'n', 'c'] : List Char).length = 3 := rfl
      have h5 : a = [] := by
        have h6 := congrArg List.length ha2
        simp only [List.length_append] at h6
        rw [h4] at h3 h6
        have : a.length = 0 := by omega
        exact List.length_eq_zero.mp this
      rw [h5, List.nil_append] at ha2
      rw [← ha2]

theorem mem_of_matchTokens_lit : ∀ (ts : List GlobToken) (name : List Char) (c : Char),
    matchTokens ts name = true → GlobToken.lit c ∈ ts → c ∈ name := by
  intro ts
  induction ts with
  | nil => intro name c _ hmem; simp at hmem
  | cons t ts ih =>
    intro name c hm hmem
    cases t with
    | star =>
      simp only [matchTokens, List.any_eq_true] at hm
      obtain ⟨s, hs, hms⟩ := hm
      rw [List.mem_tails] at hs
      rcases List.mem_cons.mp hmem with h | h
      · exact absurd h (by simp)
      · exact hs.subset (ih s c hms h)
    | anyChar =>
      cases name with
      | nil => simp [matchTokens] at hm
      | cons e ns =>
        simp only [matchTokens] at hm
        rcases List.mem_cons.mp hmem with h | h
        · exact absurd h (by simp)
        · exact List.mem_cons_of_mem e (ih ns c hm h)
    | lit d =>
      cases name with
      | nil => simp [matchTokens] at hm
      | cons e ns =>
        simp only [matchTokens, Bool.and_eq_true, beq_iff_eq] at hm
        rcases List.mem_cons.mp hmem with h | h
        · injection h with h
          rw [h, hm.1]
          exact List.mem_cons_self e ns
        · exact List.mem_cons_of_mem e (ih ns c hm.2 h)
    | cls negated items =>
      cases name with
      | nil => simp [matchTokens] at hm
      | cons e ns =>
        simp only [matchTokens, Bool.and_eq_true] at hm
        rcases List.mem_cons.mp hmem with h | h
        · exact absurd h (by simp)
        · exact List.mem_cons_of_mem e (ih ns c hm.2 h)

theorem splitAtClose_eq_some : ∀ (xs content rest : List Char),
    splitAtClose xs = some (content, rest) → xs = content ++ ']' :: rest := by
  intro xs
  induction xs with
  | nil => intro c r h; simp [splitAtClose] at h
  | cons x xs ih =>
    intro c r h
    unfold splitAtClose at h
    by_cases hx : (x == ']') = true
    · rw [if_pos hx] at h
      injection h with h
      injection h with h1 h2
      rw [← h1, ← h2, List.nil_append]
      have : x = ']' := by simpa using hx
      rw [this]
    · rw [if_neg hx] at h
      cases ho : splitAtClose xs with
      | none => rw [ho] at h; simp at h
      | some p =>
        obtain ⟨c1, r1⟩ := p
        rw [ho] at h
        simp only [Option.map_some', Option.some.injEq, Prod.mk.injEq] at h
        rw [← h.1, ← h.2]
        have := ih c1 r1 ho
        rw [List.cons_append, ← this]

theorem classBody_eq_some {ps content rest : List Char}
    (h : classBody ps = some (content, rest)) : ∃ pre, ps = pre ++ ']' :: rest := by
  unfold classBody at h
  split at h
  · rename_i c rest0
    by_cases hc : (c == ']') = true
    · rw [if_pos hc] at h
      cases ho : splitAtClose rest0 with
      | none => rw [ho] at h; simp at h
      | some p =>
        obtain ⟨c1, r1⟩ := p
        rw [ho] at h
        simp only [Option.map_some', Option.some.injEq, Prod.mk.injEq] at h
        have hsp := splitAtClose_eq_some rest0 c1 r1 ho
        refine ⟨c :: c1, ?_⟩
        rw [hsp, h.2]
        simp
    · rw [if_neg hc] at h
      have hsp := splitAtClose_eq_some _ _ _ h
      exact ⟨content, hsp⟩
  · simp at h

theorem classSplit_eq_some {ps : List Char} {negated : Bool} {content rest : List Char}
    (h : classSplit ps = some (negated, content, rest)) :
    ∃ pre, ps = pre ++ ']' :: rest := by
  unfold classSplit at h
  split at h
  · rename_i c rest0
    by_cases hc : (c == '!') = true
    · rw [if_pos hc] at h
      cases ho : classBody rest0 with
      | none => rw [ho] at h; simp at h
      | some p =>
        obtain ⟨c1, r1⟩ := p
        rw [ho] at h
        simp only [Option.map_some', Option.some.injEq, Prod.mk.injEq] at h
        obtain ⟨pre, hpre⟩ := classBody_eq_some ho
        refine ⟨c :: pre, ?_⟩
        rw [hpre, h.2.2]
        simp
    · rw [if_neg hc] at h
      cases ho : classBody (c :: rest0) with
      | none => rw [ho] at h; simp at h
      | some p =>
        obtain ⟨c1, r1⟩ := p
        rw [ho] at h
        simp only [Option.map_some', Option.some.injEq, Prod.mk.injEq] at h
        obtain ⟨pre, hpre⟩ := classBody_eq_some ho
        refine ⟨pre, ?_⟩
        rw [hpre, h.2.2]
  · simp at h

theorem lit_underscore_mem_parse : ∀ (fuel : Nat) (l : List Char),
    '_' ∉ l → l.length + 5 ≤ fuel →
    GlobToken.lit '_' ∈ parseGlobFuel fuel (l ++ ['_', '*', '.', 'n', 'c']) := by
  intro fuel
  induction fuel with
  | zero => intro l _ h; omega
  | succ fuel ih =>
    intro l hmem hlen
    cases l with
    | nil =>
      show GlobToken.lit '_' ∈ parseGlobFuel (fuel + 1) ('_' :: ['*', '.', 'n', 'c'])
      show GlobToken.lit '_' ∈ GlobToken.lit '_' :: parseGlobFuel fuel ['*', '.', 'n', 'c']
      exact List.mem_cons_self _ _
    | cons c l2 =>
      have hmem2 : '_' ∉ l2 := fun h => hmem (List.mem_cons_of_mem c h)
      have hlen2 : l2.length + 5 ≤ fuel := by
        simp only [List.length_cons] at hlen
        omega
      show GlobToken.lit '_' ∈ parseGlobFuel (fuel + 1) (c :: (l2 ++ ['_', '*', '.', 'n', 'c']))
      by_cases h1 : (c == '*') = true
      · simp only [parseGlobFuel, h1, if_true]
        exact List.mem_cons_of_mem _ (ih l2 hmem2 hlen2)
      · by_cases h2 : (c == '?') = true
        · simp only [parseGlobFuel, h1, h2, Bool.false_eq_true, if_false, if_true]
          exact List.mem_cons_of_mem _ (ih l2 hmem2 hlen2)
        · by_cases h3 : (c == '[') = true
          · simp only [parseGlobFuel, h1, h2, h3, Bool.false_eq_true, if_false, if_true]
            cases hsp : classSplit (l2 ++ ['_', '*', '.', 'n', 'c']) with
            | none => exact List.mem_cons_of_mem _ (ih l2 hmem2 hlen2)
            | some trip =>
              obtain ⟨negated, content, rest⟩ := trip
              obtain ⟨pre, hpre⟩ := classSplit_eq_some hsp
              rcases List.append_eq_append_iff.mp hpre with ⟨a, ha1, ha2⟩ | ⟨a, ha1, ha2⟩
              · exfalso
                have : ']' ∈ (['_', '*', '.', 'n', 'c'] : List Char) := by
                  rw [ha2]
                  exact List.mem_append_right a (List.mem_cons_self _ _)
                simp at this
              · cases a with
                | nil =>
                  exfalso
                  rw [List.nil_append] at ha2
                  have : ']' ∈ (['_', '*', '.', 'n', 'c'] : List Char) := by
                    rw [← ha2]
                    exact List.mem_cons_self _ _
                  simp at this
                | cons a0 a2 =>
                  injection ha2 with hb1 hb2
                  have hrest : rest = a2 ++ ['_', '*', '.', 'n', 'c'] := hb2
                  have ha2sub : '_' ∉ a2 := fun hx => hmem2 (by
                    rw [ha1]
                    exact List.mem_append_right pre (List.mem_cons_of_mem a0 hx))
                  have ha2len : a2.length + 5 ≤ fuel := by
                    have := congrArg List.length ha1
                    simp only [List.length_append, List.length_cons] at this
                    omega
                  rw [hrest]
                  exact List.mem_cons_of_mem _ (ih a2 ha2sub ha2len)
          · simp only [parseGlobFuel, h1, h2, h3, Bool.false_eq_true, if_false]
            exact List.mem_cons_of_mem _ (ih l2 hmem2 hlen2)

theorem matchesVarGlob_self_eq_false {f : String} (h : '_' ∉ f.toList) :
    matchesVarGlob f f = false := by
  cases hx : matchesVarGlob f f with
  | false => rfl
  | true =>
    exfalso
    unfold matchesVarGlob fnmatchStr parseGlob at hx
    have htl : (f ++ "_*.nc").toList = f.toList ++ ['_', '*', '.', 'n', 'c'] := by
      show (f ++ "_*.nc").data = f.data ++ ['_', '*', '.', 'n', 'c']
      rw [String.data_append]
    rw [htl] at hx
    have hlit : GlobToken.lit '_' ∈
        parseGlobFuel (f.toList ++ ['_', '*', '.', 'n', 'c']).length
          (f.toList ++ ['_', '*', '.', 'n', 'c']) := by
      apply lit_underscore_mem_parse _ _ h
      simp
    exact h (mem_of_matchTokens_lit _ _ '_' hx hlit)

/-! ### Concrete fixtures used by witness theorems -/

/-- A 1-by-1 clipped grid with one time step whose only cell is missing. -/
def sampleGrid : ClippedGrid :=
  { xSize := some 1, ySize := some 1, times := [0], cells := [[none]] }

/-- A clip outcome that always succeeds with `sampleGrid`. -/
def sampleClipOk : String → Except String ClippedGrid := fun _ => .ok sampleGrid

/-- A clip outcome that always raises. -/
def sampleClipErr : String → Except String ClippedGrid := fun _ => .error "disk error"

/-- A world whose single region clips successfully. -/
def sampleWorld : World :=
  { shapefileIsFile := true, netcdfIsDir := true
    gdfColumns := ["Subbasin", "geometry"]
    regions := ["Bear River/Main"]
    archiveFiles := ["tmax_2010.nc"]
    clip := fun _ _ => .ok sampleGrid }

/-- A world where clipping fails for region `A` and succeeds for region `B`. -/
def sampleWorld2 : World :=
  { shapefileIsFile := true, netcdfIsDir := true
    gdfColumns := ["Subbasin"]
    regions := ["B", "A"]
    archiveFiles := ["tmax_2010.nc"]
    clip := fun r _ => if r = "A" then .error "boom" else .ok sampleGrid }

/-! ### Claims -/

/-- Claim C4: the Coordinate Reconciler rewrites every value of both spatial
coordinate axes from kilometers to meters by multiplying by 1000 and records
unit `m` in the axis metadata, and this rescaling is a round-trip: dividing
each rescaled coordinate value by 1000 recovers the original native value.
(Coordinate values are modelled as exact rationals.) -/
theorem claim_C4 (ds : Dataset) :
    (reconcile ds).xCoords = ds.xCoords.map (fun v => v * 1000) ∧
    (reconcile ds).yCoords = ds.yCoords.map (fun v => v * 1000) ∧
    (reconcile ds).xUnits = "m" ∧ (reconcile ds).yUnits = "m" ∧
    (reconcile ds).xCoords.map (fun v => v / 1000) = ds.xCoords ∧
    (reconcile ds).yCoords.map (fun v => v / 1000) = ds.yCoords := by
  have key : ∀ l : List ℚ, (l.map (fun v => v * 1000)).map (fun v => v / 1000) = l := by
    intro l
    rw [List.map_map]
    have hfun : (fun v : ℚ => v / 1000) ∘ (fun v : ℚ => v * 1000) = id := by
      funext v
      simp only [Function.comp_apply, id_eq]
      exact mul_div_cancel_right₀ v (by norm_num)
    rw [hfun, List.map_id]
  exact ⟨rfl, rfl, rfl, rfl, key ds.xCoords, key ds.yCoords⟩

/-- Claim C6: the Variable Discoverer returns the sorted set of distinct
substrings preceding the first separator in each raster filename, where the
raster files are exactly the names ending in `.nc` (pathlib glob wildcards
also match names starting with a dot); on a directory with no matching files
it returns an empty result and the caller (`process_subbasin`) skips the
region rather than crashing. -/
theorem claim_C6 (files : List String) (clip : String → Except String ClippedGrid) :
    (∀ f, isNcFile f = strEndsWith f ".nc") ∧
    (variable_stems files).Sorted (fun a b => strLe a b = true) ∧
    (variable_stems files).Nodup ∧
    (∀ s, s ∈ variable_stems files ↔
      ∃ f, f ∈ files ∧ isNcFile f = true ∧ stemOf f = s) ∧
    (files.filter isNcFile = [] →
      variable_stems files = [] ∧ (process_subbasin files clip).1 = none) := by
  refine ⟨isNcFile_eq_strEndsWith, sorted_variable_stems files,
    nodup_variable_stems files, fun s => mem_variable_stems, ?_⟩
  intro hnil
  have hstems : variable_stems files = [] := by
    unfold variable_stems
    rw [hnil]
    rfl
  refine ⟨hstems, ?_⟩
  unfold process_subbasin
  rw [hstems]
  rfl

/-- Claim C6 witness: a directory holding only `readme.txt` has no raster
files, discovery returns the empty result, and the region is skipped; a
hidden raster file such as `.tmax_2011.nc` is matched and its stem `.tmax`
discovered. -/
theorem claim_C6_witness :
    (variable_stems ["readme.txt"] = [] ∧
      (process_subbasin ["readme.txt"] sampleClipErr).1 = none) ∧
    ".tmax" ∈ variable_stems [".tmax_2011.nc"] := by
  refine ⟨(claim_C6 ["readme.txt"] sampleClipErr).2.2.2.2 (by decide), ?_⟩
  exact ((claim_C6 [".tmax_2011.nc"] sampleClipErr).2.2.2.1 ".tmax").mpr
    ⟨".tmax_2011.nc", by decide, by decide, by decide⟩

/-- Claim C9: for every region that produces output, the file name is the
region name with every space and every slash replaced by an underscore,
followed by `_timeseries.csv`; in particular `Bear River/Main` yields
`Bear_River_Main_timeseries.csv`. -/
theorem claim_C9 :
    (∀ name : String,
      output_filename name =
        String.mk (name.toList.map (fun c => if c = ' ' ∨ c = '/' then '_' else c)) ++
          "_timeseries.csv") ∧
    output_filename "Bear River/Main" = "Bear_River_Main_timeseries.csv" ∧
    (∀ (w : World) (names : List String) (fname : String) (t : RegionTable),
      (fname, t) ∈ driverOutputs w names → ∃ r ∈ names, fname = output_filename r) := by
  refine ⟨?_, rfl, ?_⟩
  · intro name
    show String.mk ((name.toList.map fun c => if c = ' ' then '_' else c).map
        fun c => if c = '/' then '_' else c) ++ "_timeseries.csv" = _
    congr 2
    rw [List.map_map]
    apply List.map_congr_left
    intro c _
    simp only [Function.comp_apply]
    by_cases h1 : c = ' '
    · subst h1; decide
    · by_cases h2 : c = '/'
      · subst h2; decide
      · simp [h1, h2]
  · intro w names fname t hmem
    rw [driverOutputs, List.mem_filterMap] at hmem
    obtain ⟨r, hr, hw⟩ := hmem
    refine ⟨r, hr, ?_⟩
    unfold writeStep at hw
    split at hw
    · rename_i t2 heq
      split at hw
      · exact absurd hw (by simp)
      · injection hw with hw1
        injection hw1 with hw1 hw2
        exact hw1.symm
    · exact absurd hw (by simp)

/-- Claim C9 witness: the sample world writes its one region
`Bear River/Main` to `Bear_River_Main_timeseries.csv`. -/
theorem claim_C9_witness :
    ("Bear_River_Main_timeseries.csv",
        RegionTable.mk [DailySeries.mk "tmax" [(0, none)]]) ∈
      driverOutputs sampleWorld sampleWorld.regions ∧
    "Bear_River_Main_timeseries.csv" = output_filename "Bear River/Main" := by
  refine ⟨by decide, ?_⟩
  obtain ⟨r, hr, he⟩ := claim_C9.2.2 sampleWorld sampleWorld.regions
    "Bear_River_Main_timeseries.csv"
    (RegionTable.mk [DailySeries.mk "tmax" [(0, none)]]) (by decide)
  rw [show sampleWorld.regions = ["Bear River/Main"] from rfl, List.mem_singleton] at hr
  rw [hr] at he
  exact he

/-- Claim C5 counterexample: the identifier is interpolated into the glob
pattern of source line 98, so a metacharacter identifier selects files that
do not begin with it: the identifier `a*b` (discovered from `a*b_2019.nc`)
selects `aXXb_2020.nc`, whose name does not start with `a*b_`.  The loader
therefore does not select exactly the prefix-matching files. -/
theorem claim_C5_counterexample :
    "a*b" ∈ variable_stems ["a*b_2019.nc", "aXXb_2020.nc"] ∧
    strStartsWith "aXXb_2020.nc" ("a*b" ++ "_") = false ∧
    "aXXb_2020.nc" ∈ netcdf_files_for "a*b" ["a*b_2019.nc", "aXXb_2020.nc"] := by
  decide

/-- Claim C5 (amended): for every variable identifier the Raster Loader
selects exactly the archive files matching the glob pattern built from the
identifier, the separator and the `.nc` suffix — for identifiers free of
glob metacharacters these are exactly the files beginning with the
identifier followed by the separator and ending in `.nc` — sorts them
lexicographically, and the combined multi-file dataset opened from them is
ordered along the time axis and carries exactly their time slices. -/
theorem claim_C5 (stem : String) (files : List String)
    (contents : String → List (Nat × List (Option ℚ))) :
    (∀ f, f ∈ netcdf_files_for stem files ↔
      f ∈ files ∧ matchesVarGlob stem f = true) ∧
    (hasGlobMeta stem = false → ∀ f,
      (matchesVarGlob stem f = true ↔
        strStartsWith f (stem ++ "_") = true ∧ strEndsWith f ".nc" = true ∧
          stem.length + 4 ≤ f.length)) ∧
    (netcdf_files_for stem files).Sorted (fun a b => strLe a b = true) ∧
    (combineByCoords contents (netcdf_files_for stem files)).Sorted
      (fun a b => a.1 ≤ b.1) ∧
    (∀ slice, slice ∈ combineByCoords contents (netcdf_files_for stem files) ↔
      ∃ f ∈ netcdf_files_for stem files, slice ∈ contents f) := by
  refine ⟨?_, ?_, sorted_sortStrings _, ?_, ?_⟩
  · intro f
    unfold netcdf_files_for
    rw [mem_sortStrings, List.mem_filter]
  · intro hmeta f
    exact matchesVarGlob_no_meta hmeta f
  · haveI : IsTotal (Nat × List (Option ℚ)) (fun a b => a.1 ≤ b.1) :=
      ⟨fun a b => Nat.le_total a.1 b.1⟩
    haveI : IsTrans (Nat × List (Option ℚ)) (fun a b => a.1 ≤ b.1) :=
      ⟨fun _ _ _ => Nat.le_trans⟩
    exact List.sorted_insertionSort _ _
  · intro slice
    unfold combineByCoords
    rw [List.mem_insertionSort, List.mem_flatten]
    constructor
    · rintro ⟨l, hl, hsl⟩
      rw [List.mem_map] at hl
      obtain ⟨f, hf, rfl⟩ := hl
      exact ⟨f, hf, hsl⟩
    · rintro ⟨f, hf, hsl⟩
      exact ⟨contents f, List.mem_map_of_mem _ hf, hsl⟩

/-- Claim C5 (amended) witness: for the metacharacter-free identifier `tmax`
over two years of files the loader selects the files beginning with `tmax_`
and ending `.nc`. -/
theorem claim_C5_witness :
    ("tmax_2010.nc" ∈ netcdf_files_for "tmax" ["tmax_2011.nc", "tmax_2010.nc"]) ∧
    matchesVarGlob "tmax" "tmax_2010.nc" = true := by
  have h := claim_C5 "tmax" ["tmax_2011.nc", "tmax_2010.nc"] (fun _ => [])
  refine ⟨(h.1 "tmax_2010.nc").mpr (by decide), ?_⟩
  exact (h.2.1 (by decide) "tmax_2010.nc").mpr ⟨by decide, by decide, by decide⟩

/-- Claim C1: when `process_subbasin` returns a table for a region, its
columns are exactly the variable identifiers whose iteration succeeded
(files found, clip raised nothing, clipped grid non-empty); a failed
variable is absent as a column, never present as a null-filled column. -/
theorem claim_C1 (files : List String) (clip : String → Except String ClippedGrid)
    (t : RegionTable) (logs : List LogMsg)
    (h : process_subbasin files clip = (some t, logs)) :
    t.columns = (variable_stems files).filter (varSucceeds files clip) ∧
    (∀ s, s ∈ t.columns ↔
      s ∈ variable_stems files ∧ varSucceeds files clip s = true) ∧
    (∀ s, varSucceeds files clip s = false → s ∉ t.columns) := by
  refine ⟨process_subbasin_columns h, fun s => mem_columns_iff h s, ?_⟩
  intro s hv hmem
  have hs := (mem_columns_iff h s).mp hmem
  rw [hv] at hs
  exact absurd hs.2 (by simp)

/-- Claim C1 witness: a directory with a hidden `.tmax` file and a `prcp`
file, both clipping successfully, yields a table whose columns are exactly
the successful identifiers, the hidden one included. -/
theorem claim_C1_witness :
    (RegionTable.mk [DailySeries.mk ".tmax" [(0, none)],
        DailySeries.mk "prcp" [(0, none)]]).columns =
      (variable_stems [".tmax_2011.nc", "prcp_2020.nc"]).filter
        (varSucceeds [".tmax_2011.nc", "prcp_2020.nc"] sampleClipOk) :=
  (claim_C1 [".tmax_2011.nc", "prcp_2020.nc"] sampleClipOk
    (RegionTable.mk [DailySeries.mk ".tmax" [(0, none)],
      DailySeries.mk "prcp" [(0, none)]])
    [.foundVariables [".tmax", "prcp"], .processingVar ".tmax",
      .processingVar "prcp", .aggregating]
    (by decide)).1

/-- Claim C2: for a variable whose glob matched files, an empty clip result
(either spatial dimension absent or of zero size) skips the variable with a
warning, and a clip-time exception skips the variable logging the underlying
cause; either way the run is not aborted: the outcome of every other variable is
unchanged. -/
theorem claim_C2 (files : List String) (clip : String → Except String ClippedGrid)
    (stem : String) (h : (netcdf_files_for stem files).isEmpty = false) :
    (∀ g, clip stem = .ok g → emptyClip g = true →
      (process_variable files clip stem).1 = none ∧
      (process_variable files clip stem).2 =
        [.processingVar stem, .warnEmptyClip stem]) ∧
    (∀ e, clip stem = .error e →
      (process_variable files clip stem).1 = none ∧
      (process_variable files clip stem).2 =
        [.processingVar stem, .errorClip stem e]) ∧
    (∀ clip2 : String → Except String ClippedGrid,
      (∀ s, s ≠ stem → clip2 s = clip s) →
      ∀ s, s ≠ stem →
        process_variable files clip2 s = process_variable files clip s) := by
  refine ⟨?_, ?_, ?_⟩
  · intro g hc hg
    unfold process_variable
    rw [h, hc]
    simp [hg]
  · intro e hc
    unfold process_variable
    rw [h, hc]
    simp
  · intro clip2 hagree s hs
    unfold process_variable
    rw [hagree s hs]

/-- Claim C2 witness: with one `tmax` file and a clip that raises
`disk error`, the variable is skipped and the cause logged. -/
theorem claim_C2_witness :
    (process_variable ["tmax_2010.nc"] sampleClipErr "tmax").1 = none ∧
    (process_variable ["tmax_2010.nc"] sampleClipErr "tmax").2 =
      [.processingVar "tmax", .errorClip "tmax" "disk error"] :=
  (claim_C2 ["tmax_2010.nc"] sampleClipErr "tmax" (by decide)).2.1
    "disk error" rfl

/-- Claim C3: on a successful clip the reduction yields the single-column
series of the stem, one scalar per time step in original time order, the
scalar being the arithmetic mean of the non-missing cells of that step, and
an all-missing step yields the explicit missing marker `none`, never a
silent zero. -/
theorem claim_C3 (files : List String) (clip : String → Except String ClippedGrid)
    (stem : String) (g : ClippedGrid)
    (hfiles : (netcdf_files_for stem files).isEmpty = false)
    (hok : clip stem = .ok g) (hne : emptyClip g = false) :
    (process_variable files clip stem).1 = some (reduceToSeries stem g) ∧
    (reduceToSeries stem g).stem = stem ∧
    (reduceToSeries stem g).entries = g.times.zip (g.cells.map spatialMean) ∧
    (g.times.length = g.cells.length →
      (reduceToSeries stem g).entries.map Prod.fst = g.times) ∧
    (∀ cells ∈ g.cells, (∀ c ∈ cells, c = none) → spatialMean cells = none) ∧
    (∀ cells : List (Option ℚ), cells.filterMap id ≠ [] →
      spatialMean cells =
        some ((cells.filterMap id).sum / ((cells.filterMap id).length : ℚ))) := by
  refine ⟨?_, rfl, rfl, ?_, ?_, ?_⟩
  · unfold process_variable
    rw [hfiles, hok]
    simp [hne]
  · intro hlen
    unfold reduceToSeries
    apply List.map_fst_zip
    rw [List.length_map]
    omega
  · intro cells _ hmiss
    unfold spatialMean
    have : cells.filterMap id = [] := by
      rw [List.filterMap_eq_nil_iff]
      intro c hc
      rw [hmiss c hc]
      rfl
    simp [this]
  · intro cells hnonempty
    unfold spatialMean
    rw [if_neg]
    rw [List.isEmpty_iff]
    exact hnonempty

/-- Claim C3 witness: a successful clip of the sample grid yields the
single-column `tmax` series; its lone all-missing time step reduces to the
missing marker, and a step with one present cell reduces to its mean. -/
theorem claim_C3_witness :
    (process_variable ["tmax_2010.nc"] sampleClipOk "tmax").1 =
      some (reduceToSeries "tmax" sampleGrid) ∧
    spatialMean [none] = none ∧
    spatialMean [some 1] =
      some ((List.filterMap id [some 1]).sum /
        ((List.filterMap id [some 1]).length : ℚ)) := by
  have h := claim_C3 ["tmax_2010.nc"] sampleClipOk "tmax" sampleGrid
    (by decide) rfl (by decide)
  refine ⟨h.1, ?_, h.2.2.2.2.2 [some 1] (by decide)⟩
  exact h.2.2.2.2.1 [none] (by decide) (by decide)

/-- Claim C7: `main` exits non-zero (with a descriptive message) exactly when
the shapefile path is not a file, the raster directory is not a directory, or
the configured ID column is absent from the attribute columns of the vector file;
in the last case the available column names are printed. -/
theorem claim_C7 (w : World) (idColumn : String) :
    ((∃ code msgs, main w idColumn = .exit code msgs ∧ code ≠ 0) ↔
      (w.shapefileIsFile = false ∨ w.netcdfIsDir = false ∨
        idColumn ∉ w.gdfColumns)) ∧
    (w.shapefileIsFile = false →
      main w idColumn = .exit 1 [.shapefileNotFound]) ∧
    (w.shapefileIsFile = true → w.netcdfIsDir = false →
      main w idColumn = .exit 1 [.netcdfDirNotFound]) ∧
    (w.shapefileIsFile = true → w.netcdfIsDir = true →
      idColumn ∉ w.gdfColumns →
      main w idColumn =
        .exit 1 [.idColumnNotFound idColumn, .availableColumns w.gdfColumns]) ∧
    (w.shapefileIsFile = true → w.netcdfIsDir = true →
      idColumn ∈ w.gdfColumns →
      main w idColumn = .completed (driverOutputs w w.regions)) := by
  refine ⟨⟨?_, ?_⟩, ?_, ?_, ?_, ?_⟩
  · rintro ⟨code, msgs, hm, hcode⟩
    by_cases h1 : w.shapefileIsFile
    · by_cases h2 : w.netcdfIsDir
      · by_cases h3 : idColumn ∈ w.gdfColumns
        · exfalso
          simp [main, h1, h2, h3] at hm
        · exact Or.inr (Or.inr h3)
      · exact Or.inr (Or.inl (by simpa using h2))
    · exact Or.inl (by simpa using h1)
  · intro hcase
    rcases hcase with h1 | h2 | h3
    · exact ⟨1, [.shapefileNotFound], by simp [main, h1], one_ne_zero⟩
    · by_cases h1 : w.shapefileIsFile
      · exact ⟨1, [.netcdfDirNotFound], by simp [main, h1, h2], one_ne_zero⟩
      · exact ⟨1, [.shapefileNotFound],
          by simp [main, (by simpa using h1 : w.shapefileIsFile = false)],
          one_ne_zero⟩
    · by_cases h1 : w.shapefileIsFile
      · by_cases h2 : w.netcdfIsDir
        · exact ⟨1, [.idColumnNotFound idColumn, .availableColumns w.gdfColumns],
            by simp [main, h1, h2, h3], one_ne_zero⟩
        · exact ⟨1, [.netcdfDirNotFound],
            by simp [main, h1, (by simpa using h2 : w.netcdfIsDir = false)],
            one_ne_zero⟩
      · exact ⟨1, [.shapefileNotFound],
          by simp [main, (by simpa using h1 : w.shapefileIsFile = false)],
          one_ne_zero⟩
  · intro h1
    simp [main, h1]
  · intro h1 h2
    simp [main, h1, h2]
  · intro h1 h2 h3
    simp [main, h1, h2, h3]
  · intro h1 h2 h3
    simp [main, h1, h2, h3]

/-- Claim C7 witness: requesting the absent column `Foo` in the sample world
exits with status 1 and prints the available columns. -/
theorem claim_C7_witness :
    main sampleWorld "Foo" =
      .exit 1 [.idColumnNotFound "Foo",
        .availableColumns ["Subbasin", "geometry"]] :=
  (claim_C7 sampleWorld "Foo").2.2.2.1 rfl rfl (by decide)

/-- Claim C8: a region none of whose variables was successfully processed
yields no table, the condition is logged as a warning (not an error), no
output file is written for it, and processing continues with the remaining
regions unchanged. -/
theorem claim_C8 (w : World) (name : String) (rs1 rs2 : List String)
    (hall : ∀ s ∈ variable_stems w.archiveFiles,
      varSucceeds w.archiveFiles (w.clip name) s = false) :
    (process_subbasin w.archiveFiles (w.clip name)).1 = none ∧
    (LogMsg.warnNoFiles ∈ (process_subbasin w.archiveFiles (w.clip name)).2 ∨
      LogMsg.warnNoData ∈ (process_subbasin w.archiveFiles (w.clip name)).2) ∧
    writeStep w name = none ∧
    driverOutputs w (rs1 ++ name :: rs2) =
      driverOutputs w rs1 ++ driverOutputs w rs2 := by
  have hnone : (process_subbasin w.archiveFiles (w.clip name)).1 = none :=
    (fst_process_subbasin_none_iff _ _).mpr hall
  have hws : writeStep w name = none := by
    unfold writeStep
    rw [hnone]
  refine ⟨hnone, ?_, hws, ?_⟩
  · by_cases hs : (variable_stems w.archiveFiles).isEmpty = true
    · left
      unfold process_subbasin
      rw [if_pos hs]
      simp
    · right
      unfold process_subbasin at hnone ⊢
      rw [if_neg hs] at hnone ⊢
      by_cases hser : (basin_timeseries_list w.archiveFiles (w.clip name)).isEmpty = true
      · rw [if_pos hser]
        simp
      · rw [if_neg hser] at hnone
        simp at hnone
  · unfold driverOutputs
    rw [List.filterMap_append]
    congr 1
    rw [List.filterMap_cons_none hws]

/-- Claim C8 witness: in `sampleWorld2` the clip for region `A` always
raises, so `A` yields no table and no file, while region `B` before it is
processed as usual. -/
theorem claim_C8_witness :
    (process_subbasin sampleWorld2.archiveFiles (sampleWorld2.clip "A")).1 =
      none ∧
    driverOutputs sampleWorld2 (["B"] ++ "A" :: []) =
      driverOutputs sampleWorld2 ["B"] ++ driverOutputs sampleWorld2 [] := by
  have h := claim_C8 sampleWorld2 "A" ["B"] [] (by decide)
  exact ⟨h.1, h.2.2.2⟩

/-- Claim C10 counterexample: with directory contents `solar.nc` (a raster
file with no separator in its name) and `solar.nc_2020.nc`, discovery yields
the identifier `solar.nc`, yet the loader pattern for that identifier does
match a file, the identifier is processed, and it contributes a column — so
the "matches no files, contributes no column" part of the claim fails as stated. -/
theorem claim_C10_counterexample :
    stemOf "solar.nc" = "solar.nc" ∧
    ('_' ∉ "solar.nc".toList) ∧
    "solar.nc" ∈ variable_stems ["solar.nc", "solar.nc_2020.nc"] ∧
    netcdf_files_for "solar.nc" ["solar.nc", "solar.nc_2020.nc"] =
      ["solar.nc_2020.nc"] ∧
    (process_subbasin ["solar.nc", "solar.nc_2020.nc"] sampleClipOk).1 =
      some (RegionTable.mk [DailySeries.mk "solar.nc" [(0, none)]]) ∧
    "solar.nc" ∈
      (RegionTable.mk [DailySeries.mk "solar.nc" [(0, none)]]).columns := by
  decide

/-- Claim C10 (amended): a raster file with no separator in its name (hidden
files included) yields itself (extension included) as an identifier, and the
loader pattern never matches the file itself; when no file in the directory
matches the pattern, the identifier is silently skipped and contributes no
column. -/
theorem claim_C10_amended (files : List String)
    (clip : String → Except String ClippedGrid) (f : String)
    (hf : f ∈ files) (hnosep : '_' ∉ f.toList) (hnc : isNcFile f = true) :
    stemOf f = f ∧
    f ∈ variable_stems files ∧
    matchesVarGlob f f = false ∧
    ((∀ f2 ∈ files, matchesVarGlob f f2 = false) →
      netcdf_files_for f files = [] ∧
      process_variable files clip f = (none, [.processingVar f]) ∧
      ∀ t logs, process_subbasin files clip = (some t, logs) →
        f ∉ t.columns) := by
  have hstem : stemOf f = f := by
    unfold stemOf
    have htake : f.toList.takeWhile (fun c => c != '_') = f.toList := by
      rw [List.takeWhile_eq_self_iff]
      intro c hc
      have hcne : c ≠ '_' := fun h => hnosep (h ▸ hc)
      simpa using hcne
    rw [htake]
    rfl
  have hglob : matchesVarGlob f f = false := matchesVarGlob_self_eq_false hnosep
  refine ⟨hstem, mem_variable_stems.mpr ⟨f, hf, hnc, hstem⟩, hglob, ?_⟩
  intro hnomatch
  have hfilter : files.filter (matchesVarGlob f) = [] :=
    List.filter_eq_nil_iff.mpr (fun f2 h2 => by simp [hnomatch f2 h2])
  have hnil : netcdf_files_for f files = [] := by
    unfold netcdf_files_for sortStrings
    rw [hfilter]
    rfl
  have hpv : process_variable files clip f = (none, [.processingVar f]) := by
    unfold process_variable
    rw [hnil]
    rfl
  refine ⟨hnil, hpv, ?_⟩
  intro t logs hps hmem
  have hs := (mem_columns_iff hps f).mp hmem
  have hvf : varSucceeds files clip f = false := by
    unfold varSucceeds
    rw [hnil]
    rfl
  rw [hvf] at hs
  exact absurd hs.2 (by simp)

/-- Claim C10 (amended) witness: in a directory holding only `solar.nc`, the
identifier `solar.nc` is discovered, matches nothing, and is silently
skipped. -/
theorem claim_C10_witness :
    stemOf "solar.nc" = "solar.nc" ∧
    matchesVarGlob "solar.nc" "solar.nc" = false ∧
    netcdf_files_for "solar.nc" ["solar.nc"] = [] ∧
    process_variable ["solar.nc"] sampleClipOk "solar.nc" =
      (none, [.processingVar "solar.nc"]) := by
  have h := claim_C10_amended ["solar.nc"] sampleClipOk "solar.nc"
    (by decide) (by decide) (by decide)
  have h2 := h.2.2.2 (by decide)
  exact ⟨h.1, h.2.2.1, h2.1, h2.2.1⟩

end DayMet
